import Mathlib

/-!
Formal model of the TruthGaurd claim-verification core.

This file embeds, in Lean 4, the pure computational content of
`backend/app/utils/scoring.py`, `backend/app/services/credibility_analyzer.py`,
`backend/app/services/llm.py` and `backend/app/services/claim_extractor.py`,
and proves (or refutes) the specified properties of those functions.

Modelling conventions:
* Python `float` values are modelled as `ℚ` (the scores in this code are
  small decimal literals combined by `+`, `*`, `min`, `max`, `/`).
* Python strings are Lean `String`s; `x in y` (substring test) is `strIn`;
  `str.lower()` is `pyLower`; `str.strip()` is `pyStrip` (kernel-reducible
  models of the library functions).
* Python dicts appearing as records are Lean structures; a key that may be
  absent is an `Option` field, with `.get(k, d)` becoming `Option.getD`.
* Fallible operations (JSON decoding, `float(...)` coercion) return
  `Option`; an exception caught by the source is an explicit `none` branch.
-/

/-- Python substring containment `needle in haystack` on lists of characters:
true iff `needle` occurs contiguously inside `haystack`. -/
def subList (needle : List Char) : List Char → Bool
  | [] => needle.isEmpty
  | c :: rest => needle.isPrefixOf (c :: rest) || subList needle rest

/-- Python `needle in haystack` for strings. -/
def strIn (needle haystack : String) : Bool :=
  subList needle.data haystack.data

/-- Python `str.lower()` (kernel-reducible model of `String.toLower`). -/
def pyLower (s : String) : String :=
  ⟨s.data.map Char.toLower⟩

/-- Remove leading and trailing whitespace from a character list. -/
def trimList (l : List Char) : List Char :=
  ((l.dropWhile Char.isWhitespace).reverse.dropWhile Char.isWhitespace).reverse

/-- Python `str.strip()` (kernel-reducible model of `String.trim`). -/
def pyStrip (s : String) : String :=
  ⟨trimList s.data⟩

/-- Python `len(s)` for strings. -/
def pyLen (s : String) : Nat :=
  s.data.length

/-- Splitting accumulator: cut the list at every character satisfying `p`. -/
def splitAux (p : Char → Bool) : List Char → List Char → List (List Char)
  | [], acc => [acc.reverse]
  | c :: cs, acc => if p c then acc.reverse :: splitAux p cs [] else splitAux p cs (c :: acc)

/-- Split a string at every character satisfying `p` (a kernel-reducible
model of `String.split`): fragments between separator characters, empty
fragments included. -/
def pySplitOn (s : String) (p : Char → Bool) : List String :=
  (splitAux p s.data []).map String.mk

/-- Python `str.split()` with no separator: split on whitespace runs,
discarding empty fragments. -/
def pySplitWs (s : String) : List String :=
  (pySplitOn s Char.isWhitespace).filter (fun w => w ≠ "")

/-! ## `backend/app/utils/scoring.py` -/

/-- Synonyms mapped to `"true"` (scoring.py line 78). -/
def true_variants : List String := ["true", "correct", "accurate", "verified", "factual"]

/-- Synonyms mapped to `"false"` (scoring.py line 79). -/
def false_variants : List String :=
  ["false", "incorrect", "inaccurate", "debunked", "disproven"]

/-- Synonyms mapped to `"misleading"` (scoring.py line 80). -/
def misleading_variants : List String :=
  ["misleading", "partially true", "partially false", "mixed", "unclear"]

/-- `normalize_verdict` (scoring.py lines 65-89).  Lower-cases and strips the
input, then tests each variant list with Python's substring `in`. -/
def normalize_verdict (verdict : String) : String :=
  let v := pyStrip (pyLower verdict)
  if true_variants.any (fun w => strIn w v) then "true"
  else if false_variants.any (fun w => strIn w v) then "false"
  else if misleading_variants.any (fun w => strIn w v) then "misleading"
  else "unverified"

/-- One agent response consumed by `aggregate_verdicts`: a dict with optional
`"verdict"` and `"confidence"` keys. -/
structure AgentResponse where
  verdict : Option String := none
  confidence : Option ℚ := none
deriving DecidableEq, Repr

/-- The dict returned by `aggregate_verdicts`.  The empty-input branch of the
source returns a dict without a `"distribution"` key, hence the `Option`. -/
structure AggregatedVerdict where
  verdict : String
  confidence : ℚ
  count : Nat
  distribution : Option (List (String × Nat))
deriving DecidableEq, Repr

/-- One iteration of the counting loop
`verdict_counts[verdict] = verdict_counts.get(verdict, 0) + 1`
over an insertion-ordered dict represented as an association list:
the first matching key is incremented in place, a new key is appended. -/
def bump (acc : List (String × Nat)) (v : String) : List (String × Nat) :=
  match acc with
  | [] => [(v, 1)]
  | (k, n) :: rest => if k = v then (k, n + 1) :: rest else (k, n) :: bump rest v

/-- The counting loop of `aggregate_verdicts` (scoring.py lines 113-115):
a left fold of `bump` starting from the empty dict. -/
def countsOf (l : List String) : List (String × Nat) :=
  l.foldl bump []

/-- The loop inside Python's `max(items, key=lambda x: x[1])`: keep the
current best, replacing it only on a strictly greater key. -/
def pyMaxFrom (best : String × Nat) : List (String × Nat) → String × Nat
  | [] => best
  | y :: ys => pyMaxFrom (if best.2 < y.2 then y else best) ys

/-- Python `max(items, key=lambda x: x[1])`: the first item attaining the
maximal second component; `none` on the empty list (where Python raises,
unreachable in `aggregate_verdicts`). -/
def pyMaxBySnd (l : List (String × Nat)) : Option (String × Nat) :=
  match l with
  | [] => none
  | x :: xs => some (pyMaxFrom x xs)

/-- `aggregate_verdicts` (scoring.py lines 92-135). -/
def aggregate_verdicts (verdicts : List AgentResponse) : AggregatedVerdict :=
  if verdicts.isEmpty then
    { verdict := "unverified", confidence := 0, count := 0, distribution := none }
  else
    let normalized := verdicts.map (fun v => normalize_verdict (v.verdict.getD "unverified"))
    let verdict_counts := countsOf normalized
    let final_verdict := ((pyMaxBySnd verdict_counts).map Prod.fst).getD "unverified"
    let matching_verdicts :=
      ((verdicts.zip normalized).filter (fun p => p.2 == final_verdict)).map Prod.fst
    let avg_confidence :=
      if matching_verdicts.isEmpty then 0
      else (matching_verdicts.map (fun v => v.confidence.getD 0)).sum / matching_verdicts.length
    { verdict := final_verdict, confidence := avg_confidence,
      count := verdicts.length, distribution := some verdict_counts }

/-- First-occurrence deduplication of a string list: keeps each string's
first occurrence, in order.  This is the key order of the insertion-ordered
dict built by the counting loop. -/
def dedupFirst : List String → List String
  | [] => []
  | v :: rest => v :: dedupFirst (rest.filter (fun w => w ≠ v))
termination_by l => l.length
decreasing_by
  exact Nat.lt_succ_of_le (List.length_filter_le _ _)

/-- The normalized verdict list built by `aggregate_verdicts`
(scoring.py line 110). -/
def normalized_of (vs : List AgentResponse) : List String :=
  vs.map (fun v => normalize_verdict (v.verdict.getD "unverified"))

/-- The matching-responses list of `aggregate_verdicts` (scoring.py lines
121-124), reduced from zip/filter form to a plain filter on the inputs. -/
def matching_of (vs : List AgentResponse) : List AgentResponse :=
  vs.filter (fun v => normalize_verdict (v.verdict.getD "unverified")
    == (aggregate_verdicts vs).verdict)

/-! ## `backend/app/services/credibility_analyzer.py` -/

/-- Known fact-checking domains (credibility_analyzer.py lines 16-19). -/
def fact_check_domains : List String :=
  ["factcheck.org", "snopes.com", "politifact.com",
    "fullfact.org", "checkyourfact.com", "leadstories.com"]

/-- Known unreliable domains (credibility_analyzer.py lines 22-24). -/
def unreliable_domains : List String :=
  ["infowars.com", "naturalnews.com"]

/-- Academic domain suffixes (credibility_analyzer.py lines 27-29). -/
def academic_domains : List String :=
  [".edu", ".ac.uk", ".edu.au"]

/-- String suffix test (kernel-reducible model of `String.endsWith`). -/
def pyEndsWith (s suffix : String) : Bool :=
  suffix.data.isSuffixOf s.data

/-- Replace every non-overlapping occurrence of `pat` in `hay`, left to
right (Python `str.replace`); `pat` is assumed non-empty. -/
def replaceList (pat repl : List Char) (hay : List Char) : List Char :=
  if hp : pat.isPrefixOf hay ∧ pat ≠ [] then
    repl ++ replaceList pat repl (hay.drop pat.length)
  else
    match hay with
    | [] => []
    | c :: rest => c :: replaceList pat repl rest
termination_by hay.length
decreasing_by
  · have hle : pat.length ≤ hay.length := by
      have hpre : pat <+: hay := List.isPrefixOf_iff_prefix.mp hp.1
      exact hpre.length_le
    have hpos : 0 < pat.length := by
      cases hq : pat with
      | nil => exact absurd hq hp.2
      | cons a l => simp
    simpa using Nat.sub_lt (Nat.lt_of_lt_of_le hpos hle) hpos
  · simp

/-- Python `s.replace(pat, repl)` for strings. -/
def pyReplace (s pat repl : String) : String :=
  ⟨replaceList pat.data repl.data s.data⟩

/-- `_estimate_domain_age` (credibility_analyzer.py lines 80-89). -/
def estimate_domain_age (domain : String) : String :=
  if pyEndsWith domain ".edu" || pyEndsWith domain ".gov" then "established"
  else if pyEndsWith domain ".org" then "likely_established"
  else "unknown"

/-- The flag-derived part of the metrics dict built by `analyze_source`
(credibility_analyzer.py lines 46-58). -/
structure CredibilityMetrics where
  domain : String
  domain_age : String
  is_fact_checker : Bool
  is_unreliable : Bool
  is_academic : Bool
deriving DecidableEq, Repr

/-- The domain computed by `analyze_source` from the parsed URL's netloc
(credibility_analyzer.py line 43): `parsed.netloc.replace("www.", "").lower()`. -/
def domainOfNetloc (netloc : String) : String :=
  pyLower (pyReplace netloc "www." "")

/-- The metrics dict of `analyze_source` (credibility_analyzer.py lines
46-58), computed from the parsed URL's netloc. -/
def analyze_source_metrics (netloc : String) : CredibilityMetrics :=
  let domain := domainOfNetloc netloc
  { domain := domain
    domain_age := estimate_domain_age domain
    is_fact_checker := fact_check_domains.contains domain
    is_unreliable := unreliable_domains.contains domain
    is_academic := academic_domains.any (fun ext => pyEndsWith domain ext) }

/-- `_calculate_trust_score` (credibility_analyzer.py lines 91-112):
sequential additive adjustments starting from 0.5, then a clamp to [0,1]. -/
def calculate_trust_score (m : CredibilityMetrics) : ℚ :=
  let score : ℚ := 0.5
  let score := if m.is_fact_checker then score + 0.3 else score
  let score := if m.is_academic then score + 0.2 else score
  let score := if m.is_unreliable then score - 0.4 else score
  let score := if m.domain_age = "established" then score + 0.1 else score
  max 0 (min 1 score)

/-- The `trust_score` field returned by `analyze_source` on the successful
path (credibility_analyzer.py line 61), as a function of the netloc. -/
def analyze_source_trust (netloc : String) : ℚ :=
  calculate_trust_score (analyze_source_metrics netloc)

/-! ## `backend/app/services/llm.py` -/

/-- One evidence dict.  Every access in the source is `ev.get(key, "")` (or a
truthiness test), so an absent key and an empty string are interchangeable;
each key is modelled as a `String` field defaulting to `""`. -/
structure Evidence where
  type : String := ""
  title : String := ""
  url : String := ""
  snippet : String := ""
  text : String := ""
deriving DecidableEq, Repr

/-- The fully-typed verification result produced by
`_rule_based_verify_claim`. -/
structure VerificationResult where
  verdict : String
  confidence : ℚ
  explanation : String
  citations : List String
deriving DecidableEq, Repr

/-- Supporting-language markers scanned in evidence snippets (llm.py line 216). -/
def supporting_words : List String :=
  ["confirm", "verify", "true", "accurate", "correct", "valid"]

/-- Contradicting-language markers scanned in evidence snippets (llm.py line 218). -/
def contradicting_words : List String :=
  ["false", "debunk", "disprove", "incorrect", "invalid", "misleading"]

/-- Claim-text keyword heuristics (llm.py lines 227-229). -/
def false_indicators : List String :=
  ["never happened", "fake", "hoax", "conspiracy", "false", "not true", "debunked"]

/-- Claim-text true-indicator phrases (llm.py line 228). -/
def true_indicators : List String :=
  ["confirmed", "verified", "proven", "fact", "true", "accurate", "established"]

/-- Claim-text misleading-indicator phrases (llm.py line 229). -/
def misleading_indicators : List String :=
  ["partially", "somewhat", "misleading", "out of context", "exaggerated"]

/-- Python `s[:n]` for strings. -/
def pyTake (s : String) (n : Nat) : String :=
  ⟨s.data.take n⟩

/-- One iteration of the evidence-analysis loop of `_rule_based_verify_claim`
(llm.py lines 208-224).  State: (supporting weight, contradicting weight,
collected snippets). -/
def evidence_scan_step (kws : List String) (st : ℚ × ℚ × List String) (ev : Evidence) :
    ℚ × ℚ × List String :=
  let snippet := if ev.snippet ≠ "" then ev.snippet else ev.text
  let sl := pyLower snippet
  if kws.any (fun k => strIn k sl) then
    let st1 :=
      if supporting_words.any (fun w => strIn w sl) then (st.1 + 1, st.2.1, st.2.2)
      else if contradicting_words.any (fun w => strIn w sl) then (st.1, st.2.1 + 1, st.2.2)
      else (st.1 + 0.5, st.2.1, st.2.2)
    if st1.2.2.length < 2 then
      (st1.1, st1.2.1,
        st1.2.2 ++ [if 150 < pyLen snippet then pyTake snippet 150 ++ "..." else snippet])
    else st1
  else st

/-- The evidence-analysis loop of `_rule_based_verify_claim` (llm.py lines
204-224): keywords are the words of the lower-cased claim longer than 4
characters; the loop runs over the evidence list from the zero state. -/
def evidence_scan (claim : String) (evidence : List Evidence) : ℚ × ℚ × List String :=
  let claim_keywords := (pySplitWs (pyLower claim)).filter (fun w => 4 < pyLen w)
  evidence.foldl (evidence_scan_step claim_keywords) (0, 0, [])

/-- The supporting-evidence weight accumulated by `_rule_based_verify_claim`. -/
def supporting_weight (claim : String) (evidence : List Evidence) : ℚ :=
  (evidence_scan claim evidence).1

/-- The contradicting-evidence weight accumulated by `_rule_based_verify_claim`. -/
def contradicting_weight (claim : String) (evidence : List Evidence) : ℚ :=
  (evidence_scan claim evidence).2.1

/-- The verdict/confidence/explanation-part decision chain of
`_rule_based_verify_claim` for non-empty evidence (llm.py lines 252-276). -/
def verdict_decision (supporting contradicting : ℚ)
    (false_count true_count misleading_count evidence_count : Nat) :
    String × ℚ × String :=
  if supporting > contradicting ∧ supporting > 0 then
    let m : ℤ := ⌊supporting⌋
    ("true", min 0.75 (0.5 + supporting * 0.1 + (evidence_count : ℚ) * 0.05),
      s!"Evidence supports this claim ({m} supporting source(s))")
  else if contradicting > supporting ∧ contradicting > 0 then
    let m : ℤ := ⌊contradicting⌋
    ("false", min 0.75 (0.5 + contradicting * 0.1 + (evidence_count : ℚ) * 0.05),
      s!"Evidence contradicts this claim ({m} contradicting source(s))")
  else if false_count > true_count ∧ false_count > 0 then
    ("false", min 0.7 (0.4 + (evidence_count : ℚ) * 0.1),
      "Keyword analysis suggests this claim is false")
  else if true_count > false_count ∧ true_count > 0 then
    ("true", min 0.7 (0.4 + (evidence_count : ℚ) * 0.1),
      "Keyword analysis suggests this claim is true")
  else if misleading_count > 0 then
    ("misleading", min 0.65 (0.35 + (evidence_count : ℚ) * 0.1),
      "This claim may be misleading or require additional context")
  else
    ("unverified", min 0.6 (0.3 + (evidence_count : ℚ) * 0.05),
      "Insufficient evidence to determine veracity")

/-- Numbered snippet lines `f"{idx}. {snippet}"` for `idx` starting at 1
(llm.py lines 281-282). -/
def numbered_snippets (snips : List String) : List String :=
  snips.enum.map (fun p =>
    let i := p.1 + 1
    let s := p.2
    s!"{i}. {s}")

/-- `_rule_based_verify_claim` (llm.py lines 191-299). -/
def rule_based_verify_claim (claim : String) (evidence : List Evidence) : VerificationResult :=
  let claim_lower := pyLower claim
  let evidence_count := evidence.length
  let web_sources := (evidence.filter (fun e => e.type == "web")).length
  let kb_sources := (evidence.filter (fun e => e.type == "kb")).length
  let scan := evidence_scan claim evidence
  let supporting_evidence := scan.1
  let contradicting_evidence := scan.2.1
  let evidence_snippets := scan.2.2
  let false_count := (false_indicators.filter (fun w => strIn w claim_lower)).length
  let true_count := (true_indicators.filter (fun w => strIn w claim_lower)).length
  let misleading_count := (misleading_indicators.filter (fun w => strIn w claim_lower)).length
  let citations := (evidence.take 5).filterMap (fun e =>
    if e.url ≠ "" then some e.url else if e.title ≠ "" then some e.title else none)
  if evidence_count = 0 then
    { verdict := "unverified", confidence := 0.2,
      explanation := "No evidence sources found to verify this claim. Web search and Knowledge Base retrieval returned no results.",
      citations := citations }
  else
    let base_parts := [s!"Analyzed {evidence_count} evidence source(s)"]
      ++ (if 0 < web_sources then [s!"{web_sources} web source(s)"] else [])
      ++ (if 0 < kb_sources then [s!"{kb_sources} knowledge base document(s)"] else [])
    let d := verdict_decision supporting_evidence contradicting_evidence
      false_count true_count misleading_count evidence_count
    let snippet_parts :=
      if evidence_snippets.isEmpty then []
      else ["\n\nRelevant evidence:"] ++ numbered_snippets evidence_snippets
    { verdict := d.1, confidence := d.2.1,
      explanation := String.intercalate ". " (base_parts ++ [d.2.2] ++ snippet_parts),
      citations := citations }

/-- Dynamic JSON values, as produced by `json.loads` (objects are
insertion-ordered dicts with unique keys). -/
inductive Json where
  | null
  | bool (b : Bool)
  | num (q : ℚ)
  | str (s : String)
  | arr (elems : List Json)
  | obj (fields : List (String × Json))

/-- Dict lookup `result.get(key, default)` without the default: `none` when
the key is absent. -/
def jsonLookup (fields : List (String × Json)) (key : String) : Option Json :=
  (fields.find? (fun p => p.1 == key)).map Prod.snd

/-- Value of a digit list in base 10. -/
def digitsToNat (ds : List Char) : Nat :=
  ds.foldl (fun n c => 10 * n + (c.toNat - 48)) 0

/-- Unsigned decimal literal: digits with an optional single point. -/
def parseUnsigned (l : List Char) : Option ℚ :=
  let intPart := l.takeWhile Char.isDigit
  let rest := l.dropWhile Char.isDigit
  match rest with
  | [] => if intPart = [] then none else some (digitsToNat intPart : ℚ)
  | '.' :: frac =>
    if frac.all Char.isDigit ∧ (intPart ≠ [] ∨ frac ≠ []) then
      some ((digitsToNat intPart : ℚ) + (digitsToNat frac : ℚ) / (10 : ℚ) ^ frac.length)
    else none
  | _ => none

/-- Models Python `float(...)` applied to a string: strip, optional sign,
decimal literal.  Exponent forms, `inf` and `nan` are out of scope here and
modelled as failures (they do not occur in this pipeline's data). -/
def pyFloatOfString (s : String) : Option ℚ :=
  match trimList s.data with
  | '-' :: r => (parseUnsigned r).map (fun q => -q)
  | '+' :: r => parseUnsigned r
  | r => parseUnsigned r

/-- Models Python `float(...)` on a JSON value: numbers pass through, bools
coerce to 0/1, numeric strings parse; `None`, lists and dicts raise
(`none` here). -/
def pyFloat : Json → Option ℚ
  | .num q => some q
  | .bool b => some (if b then 1 else 0)
  | .str s => pyFloatOfString s
  | _ => none

/-- The dict returned by `verify_claim`: only `confidence` is coerced (via
`float(...)`); `verdict`, `explanation` and `citations` are whatever JSON
values the backend supplied (defaulted when the key is missing). -/
structure DynVerificationResult where
  verdict : Json
  confidence : ℚ
  explanation : Json
  citations : Json

/-- Embeds a fully-typed rule-based result into the dynamic result shape. -/
def dynOfResult (r : VerificationResult) : DynVerificationResult :=
  { verdict := .str r.verdict, confidence := r.confidence,
    explanation := .str r.explanation, citations := .arr (r.citations.map .str) }

/-- `verify_claim` (llm.py lines 343-416) from the JSON-decode outcome on.
`generate` itself never raises: its two remote tiers are wrapped in
`try`/`except` and its final tier `_rule_based_fallback` is a pure string
builder, so a response string always exists.  `parsed` is the outcome of
`json.loads` on the cleaned response: `none` is a `JSONDecodeError`.  A
non-object value makes `result.get` raise `AttributeError`, and a
non-coercible `confidence` makes `float(...)` raise; both are caught by the
blanket `except` (llm.py lines 408-416), which delegates to
`_rule_based_verify_claim` — the only fallback, with no second `generate`
call. -/
def verify_claim (claim : String) (evidence : List Evidence) (parsed : Option Json) :
    DynVerificationResult :=
  match parsed with
  | some (Json.obj fields) =>
    match pyFloat ((jsonLookup fields "confidence").getD (Json.num 0.5)) with
    | some q =>
      { verdict := (jsonLookup fields "verdict").getD (Json.str "unverified")
        confidence := q
        explanation := (jsonLookup fields "explanation").getD (Json.str "")
        citations := (jsonLookup fields "citations").getD (Json.arr []) }
    | none => dynOfResult (rule_based_verify_claim claim evidence)
  | _ => dynOfResult (rule_based_verify_claim claim evidence)

/-! ## `backend/app/services/claim_extractor.py`

`extract` runs three strategies and fuses their results.  The first two
strategies call external collaborators (the spaCy parser and the generative
backend), so their outputs are parameters of the model; the third strategy
`_extract_simple` is pure and embedded below.  A strategy whose `try` body
raises contributes nothing, which is the same as passing the empty list. -/

/-- A claim dict as produced by one extraction strategy: text, confidence,
and (for the generative strategy) an optional `"method"` key. -/
structure RawClaim where
  claim : String
  confidence : ℚ
  method : Option String := none
deriving DecidableEq, Repr

/-- A fused claim dict as returned by `extract`. -/
structure Claim where
  id : Nat
  claim : String
  confidence : ℚ
  method : String
deriving DecidableEq, Repr

/-- The dedup key used throughout `extract`: `claim["claim"].strip().lower()`. -/
def claimText (c : Claim) : String :=
  pyLower (pyStrip c.claim)

/-- Fusion state: the accumulated claim list and the set of seen dedup keys
(`all_claims`, `claim_texts` in the source; the Python set is modelled as the
list of keys in insertion order — only membership is ever queried). -/
abbrev FusionState := List Claim × List String

/-- Body of the spaCy fusion loop (claim_extractor.py lines 253-262):
exact-duplicate check only. -/
def fuse_exact (method : String) (st : FusionState) (rc : RawClaim) : FusionState :=
  let claim_text := pyLower (pyStrip rc.claim)
  if st.2.contains claim_text then st
  else
    (st.1 ++ [{ id := st.1.length + 1, claim := rc.claim,
                confidence := rc.confidence, method := method }],
      st.2 ++ [claim_text])

/-- Body of the LLM/fallback fusion loops (claim_extractor.py lines 272-290
and 300-318): containment-based near-duplicate check (both texts longer
than 20 characters), then the exact-duplicate check. -/
def fuse_similar (defaultMethod : String) (st : FusionState) (rc : RawClaim) : FusionState :=
  let claim_text := pyLower (pyStrip rc.claim)
  let is_duplicate := st.2.any (fun existing_text =>
    (strIn claim_text existing_text || strIn existing_text claim_text)
      && decide (20 < pyLen claim_text) && decide (20 < pyLen existing_text))
  if !is_duplicate && !st.2.contains claim_text then
    (st.1 ++ [{ id := st.1.length + 1, claim := rc.claim,
                confidence := rc.confidence, method := rc.method.getD defaultMethod }],
      st.2 ++ [claim_text])
  else st

/-- `_extract_simple` (claim_extractor.py lines 216-231): split on sentence
terminators, keep stripped fragments longer than 20 characters containing an
auxiliary/modal keyword.  The pre-fusion ids are irrelevant (they are
reassigned), so only text and confidence are kept. -/
def extract_simple (text : String) : List RawClaim :=
  let simple_keywords : List String := ["is", "are", "was", "were", "will", "can", "has", "have"]
  ((pySplitOn text (fun c => c == '.' || c == '!' || c == '?')).map pyStrip).filterMap
    (fun sentence =>
      if 20 < pyLen sentence
          ∧ simple_keywords.any (fun k => strIn k (pyLower sentence)) then
        some { claim := sentence, confidence := 0.6 }
      else none)

/-- Descending-by-confidence order used by `all_claims.sort(key=...,
reverse=True)` (claim_extractor.py line 323). -/
def claimGE (a b : Claim) : Prop :=
  b.confidence ≤ a.confidence

instance : DecidableRel claimGE :=
  fun a b => inferInstanceAs (Decidable (b.confidence ≤ a.confidence))

instance : IsTotal Claim claimGE :=
  ⟨fun a b => (le_total b.confidence a.confidence).imp id id⟩

instance : IsTrans Claim claimGE :=
  ⟨fun _ _ _ hab hbc => le_trans hbc hab⟩

/-- Renumbering loop `for idx, claim in enumerate(all_claims, 1):
claim["id"] = idx` (claim_extractor.py lines 324-325). -/
def renumber (i : Nat) : List Claim → List Claim
  | [] => []
  | c :: l => { c with id := i } :: renumber (i + 1) l

/-- `extract` (claim_extractor.py lines 233-327).  `spacy_claims` and
`llm_claims` are the outputs of the two collaborator-backed strategies
(empty on strategy failure); `use_llm` is the `self.use_llm and
self.llm_service` guard.  Python's stable `sort(reverse=True)` is
`insertionSort` with the total order `claimGE`, which is also stable. -/
def extract (text : String) (spacy_claims llm_claims : List RawClaim) (use_llm : Bool) :
    List Claim :=
  if pyLen (pyStrip text) < 10 then []
  else
    let st1 := spacy_claims.foldl (fuse_exact "spacy") ([], [])
    let st2 := if use_llm then llm_claims.foldl (fuse_similar "llm") st1 else st1
    let st3 := (extract_simple text).foldl (fuse_similar "fallback") st2
    renumber 1 (List.insertionSort claimGE st3.1)

/-- The number of claim-text indicator hits for a given indicator list. -/
def indicator_hits (indicators : List String) (claim : String) : ℕ :=
  (indicators.filter (fun w => strIn w (pyLower claim))).length

/-- The scenario evidence of §8 of the spec: one supporting web source whose
snippet shares the claim keyword "earth" and contains "confirmed". -/
def earth_evidence : Evidence :=
  { type := "web", title := "Earth shape", url := "https://nasa.example/earth",
    snippet := "NASA confirmed that the Earth is round." }

/-! ## Helper lemmas -/

/-- The clamp `max(0.0, min(1.0, score))` is bounded below by 0. -/
theorem clamp01_nonneg (q : ℚ) : 0 ≤ max 0 (min 1 q) :=
  le_max_left 0 _

/-- The clamp `max(0.0, min(1.0, score))` is bounded above by 1. -/
theorem clamp01_le_one (q : ℚ) : max 0 (min 1 q) ≤ 1 :=
  max_le (by norm_num) (min_le_left 1 q)

/-! ## Claim theorems -/

/-- C2 (code_bug evidence): `normalize_verdict` is not idempotent.  A first
application sends `"hoax"` to the canonical verdict `"unverified"`, but a
second application sends `"unverified"` to `"true"`, because the substring
test finds the true-synonym `"verified"` inside `"unverified"`. -/
theorem normalize_verdict_not_idempotent_at_hoax :
    normalize_verdict "hoax" = "unverified"
      ∧ normalize_verdict (normalize_verdict "hoax") = "true"
      ∧ normalize_verdict (normalize_verdict "hoax") ≠ normalize_verdict "hoax" := by
  refine ⟨by decide, by decide, by decide⟩

/-- C3 (code_bug evidence): the synonym table of the claim is not what the
code computes.  Because membership is tested with Python's substring `in`
against the true-variants first, `"incorrect"` (listed in the code's own
`false_variants`) normalizes to `"true"` via its substring `"correct"`,
`"partially true"` (listed in `misleading_variants`) normalizes to `"true"`,
and `"unverified"` — which the claim's catch-all clause says maps to
`"unverified"` — normalizes to `"true"` via its substring `"verified"`. -/
theorem normalize_verdict_synonym_table_broken :
    normalize_verdict "incorrect" = "true"
      ∧ normalize_verdict "partially true" = "true"
      ∧ normalize_verdict "unverified" = "true" := by
  refine ⟨by decide, by decide, by decide⟩

/-- C6: for every claim string, the rule-based verifier applied to an empty
evidence list returns verdict `"unverified"` with confidence exactly 0.2
(and, incidentally, no citations). -/
theorem rule_based_empty_evidence (claim : String) :
    (rule_based_verify_claim claim []).verdict = "unverified"
      ∧ (rule_based_verify_claim claim []).confidence = 0.2
      ∧ (rule_based_verify_claim claim []).citations = [] :=
  ⟨rfl, rfl, rfl⟩

/-- C10: `aggregate_verdicts` on the empty list returns exactly the neutral
dict: verdict `"unverified"`, confidence 0.0, count 0, and no
`"distribution"` key. -/
theorem aggregate_verdicts_empty :
    aggregate_verdicts [] =
      { verdict := "unverified", confidence := 0, count := 0, distribution := none } :=
  rfl

/-- The sequential score adjustments of `_calculate_trust_score` equal one
additive formula under the final clamp. -/
theorem analyze_source_trust_as_clamp (netloc : String) :
    analyze_source_trust netloc =
      max 0 (min 1 (0.5
        + (if (analyze_source_metrics netloc).is_fact_checker then 0.3 else 0)
        + (if (analyze_source_metrics netloc).is_academic then 0.2 else 0)
        - (if (analyze_source_metrics netloc).is_unreliable then 0.4 else 0)
        + (if (analyze_source_metrics netloc).domain_age = "established" then 0.1 else 0))) := by
  unfold analyze_source_trust calculate_trust_score
  rcases analyze_source_metrics netloc with ⟨d, da, fc, ur, ac⟩
  cases fc <;> cases ac <;> cases ur <;> by_cases hda : da = "established" <;>
    simp [hda]

/-- C7: for every URL whose parsing succeeds (modelled from the parsed
netloc on), the trust score of `analyze_source` is the clamp to [0,1] of
0.5, plus 0.3 for a fact-checker domain, plus 0.2 for an academic suffix,
minus 0.4 for an unreliable domain, plus 0.1 for an "established" domain
age; consequently it always lies in [0,1]. -/
theorem analyze_source_trust_formula (netloc : String) :
    analyze_source_trust netloc =
      max 0 (min 1 (0.5
        + (if (analyze_source_metrics netloc).is_fact_checker then 0.3 else 0)
        + (if (analyze_source_metrics netloc).is_academic then 0.2 else 0)
        - (if (analyze_source_metrics netloc).is_unreliable then 0.4 else 0)
        + (if (analyze_source_metrics netloc).domain_age = "established" then 0.1 else 0)))
      ∧ 0 ≤ analyze_source_trust netloc ∧ analyze_source_trust netloc ≤ 1 :=
  ⟨analyze_source_trust_as_clamp netloc,
    (analyze_source_trust_as_clamp netloc) ▸ clamp01_nonneg _,
    (analyze_source_trust_as_clamp netloc) ▸ clamp01_le_one _⟩

/-- One evidence-scan step keeps both accumulated weights non-negative. -/
theorem evidence_scan_step_nonneg (kws : List String) (ev : Evidence) (a b : ℚ)
    (snips : List String) (h1 : 0 ≤ a) (h2 : 0 ≤ b) :
    0 ≤ (evidence_scan_step kws (a, b, snips) ev).1
      ∧ 0 ≤ (evidence_scan_step kws (a, b, snips) ev).2.1 := by
  unfold evidence_scan_step
  dsimp only
  split_ifs <;> dsimp only <;> exact ⟨by linarith, by linarith⟩

/-- The evidence-scan loop keeps both accumulated weights non-negative. -/
theorem evidence_scan_foldl_nonneg (kws : List String) :
    ∀ (evs : List Evidence) (st : ℚ × ℚ × List String), 0 ≤ st.1 → 0 ≤ st.2.1 →
      0 ≤ (evs.foldl (evidence_scan_step kws) st).1
        ∧ 0 ≤ (evs.foldl (evidence_scan_step kws) st).2.1 := by
  intro evs
  induction evs with
  | nil => exact fun st h1 h2 => ⟨h1, h2⟩
  | cons ev rest ih =>
    rintro ⟨a, b, snips⟩ h1 h2
    obtain ⟨g1, g2⟩ := evidence_scan_step_nonneg kws ev a b snips h1 h2
    exact ih _ g1 g2

/-- The supporting weight is non-negative. -/
theorem supporting_weight_nonneg (claim : String) (evidence : List Evidence) :
    0 ≤ supporting_weight claim evidence :=
  (evidence_scan_foldl_nonneg _ evidence (0, 0, []) le_rfl le_rfl).1

/-- The contradicting weight is non-negative. -/
theorem contradicting_weight_nonneg (claim : String) (evidence : List Evidence) :
    0 ≤ contradicting_weight claim evidence :=
  (evidence_scan_foldl_nonneg _ evidence (0, 0, []) le_rfl le_rfl).2

/-- Every confidence produced by the decision chain of
`_rule_based_verify_claim` lies in [0,1] (given the weights are
non-negative, which the scan guarantees). -/
theorem verdict_decision_confidence_bounds (s c : ℚ) (fc tc mc n : ℕ)
    (hs : 0 ≤ s) (hc : 0 ≤ c) :
    0 ≤ (verdict_decision s c fc tc mc n).2.1
      ∧ (verdict_decision s c fc tc mc n).2.1 ≤ 1 := by
  have hn : (0 : ℚ) ≤ (n : ℚ) := by positivity
  have hs1 : (0 : ℚ) ≤ s * 0.1 := by nlinarith
  have hc1 : (0 : ℚ) ≤ c * 0.1 := by nlinarith
  have hn1 : (0 : ℚ) ≤ (n : ℚ) * 0.05 := by nlinarith
  have hn2 : (0 : ℚ) ≤ (n : ℚ) * 0.1 := by nlinarith
  unfold verdict_decision
  split_ifs <;> constructor <;>
    first
      | exact le_min (by norm_num) (by linarith)
      | exact le_trans (min_le_left _ _) (by norm_num)

/-- The scan of the empty evidence list is the zero state. -/
theorem evidence_scan_nil (claim : String) : evidence_scan claim [] = (0, 0, []) :=
  rfl

/-- For non-empty evidence, the verdict, confidence and citations of
`_rule_based_verify_claim` are those of the decision chain and of the
citation extraction loop. -/
theorem rule_based_nonempty_shape (claim : String) (evidence : List Evidence)
    (hne : evidence.length ≠ 0) :
    (rule_based_verify_claim claim evidence).verdict
        = (verdict_decision (supporting_weight claim evidence)
            (contradicting_weight claim evidence) (indicator_hits false_indicators claim)
            (indicator_hits true_indicators claim) (indicator_hits misleading_indicators claim)
            evidence.length).1
      ∧ (rule_based_verify_claim claim evidence).confidence
          = (verdict_decision (supporting_weight claim evidence)
              (contradicting_weight claim evidence) (indicator_hits false_indicators claim)
              (indicator_hits true_indicators claim)
              (indicator_hits misleading_indicators claim) evidence.length).2.1
      ∧ (rule_based_verify_claim claim evidence).citations
          = (evidence.take 5).filterMap (fun e =>
              if e.url ≠ "" then some e.url else if e.title ≠ "" then some e.title else none) := by
  unfold rule_based_verify_claim
  rw [if_neg hne]
  exact ⟨rfl, rfl, rfl⟩

/-- The first branch of the decision chain: strictly dominant, positive
supporting weight yields `"true"` with the branch's confidence formula. -/
theorem verdict_decision_true_branch (s c : ℚ) (fc tc mc n : ℕ)
    (h1 : c < s) (h2 : 0 < s) :
    (verdict_decision s c fc tc mc n).1 = "true"
      ∧ (verdict_decision s c fc tc mc n).2.1
          = min 0.75 (0.5 + s * 0.1 + (n : ℚ) * 0.05) := by
  unfold verdict_decision
  rw [if_pos ⟨h1, h2⟩]
  exact ⟨rfl, rfl⟩

/-- The second branch of the decision chain: strictly dominant, positive
contradicting weight yields `"false"` with the branch's confidence formula. -/
theorem verdict_decision_false_branch (s c : ℚ) (fc tc mc n : ℕ)
    (h1 : s < c) (h2 : 0 < c) :
    (verdict_decision s c fc tc mc n).1 = "false"
      ∧ (verdict_decision s c fc tc mc n).2.1
          = min 0.75 (0.5 + c * 0.1 + (n : ℚ) * 0.05) := by
  unfold verdict_decision
  rw [if_neg (by rintro ⟨hgt, -⟩; exact absurd h1 (not_lt.mpr hgt.le)), if_pos ⟨h1, h2⟩]
  exact ⟨rfl, rfl⟩

/-- Positive supporting weight forces non-empty evidence. -/
theorem evidence_ne_zero_of_weight_pos {claim : String} {evidence : List Evidence}
    {w : ℚ} (hw : 0 < w)
    (h : w = supporting_weight claim evidence ∨ w = contradicting_weight claim evidence) :
    evidence.length ≠ 0 := by
  intro hlen
  rw [List.length_eq_zero] at hlen
  subst hlen
  rcases h with h | h <;>
    · rw [h] at hw
      simp only [supporting_weight, contradicting_weight, evidence_scan_nil] at hw
      exact absurd hw (by norm_num)

/-- Dominant supporting evidence forces the `"true"` branch of
`_rule_based_verify_claim`, with the branch's confidence formula. -/
theorem rule_based_supporting_dominates (claim : String) (evidence : List Evidence)
    (h1 : contradicting_weight claim evidence < supporting_weight claim evidence)
    (h2 : 0 < supporting_weight claim evidence) :
    (rule_based_verify_claim claim evidence).verdict = "true"
      ∧ (rule_based_verify_claim claim evidence).confidence
          = min 0.75 (0.5 + supporting_weight claim evidence * 0.1
              + (evidence.length : ℚ) * 0.05) := by
  have hne := evidence_ne_zero_of_weight_pos h2 (Or.inl rfl)
  obtain ⟨hv, hc, -⟩ := rule_based_nonempty_shape claim evidence hne
  obtain ⟨bv, bc⟩ := verdict_decision_true_branch (supporting_weight claim evidence)
    (contradicting_weight claim evidence) (indicator_hits false_indicators claim)
    (indicator_hits true_indicators claim) (indicator_hits misleading_indicators claim)
    evidence.length h1 h2
  exact ⟨hv.trans bv, hc.trans bc⟩

/-- Dominant contradicting evidence forces the `"false"` branch of
`_rule_based_verify_claim`, with the branch's confidence formula. -/
theorem rule_based_contradicting_dominates (claim : String) (evidence : List Evidence)
    (h1 : supporting_weight claim evidence < contradicting_weight claim evidence)
    (h2 : 0 < contradicting_weight claim evidence) :
    (rule_based_verify_claim claim evidence).verdict = "false"
      ∧ (rule_based_verify_claim claim evidence).confidence
          = min 0.75 (0.5 + contradicting_weight claim evidence * 0.1
              + (evidence.length : ℚ) * 0.05) := by
  have hne := evidence_ne_zero_of_weight_pos h2 (Or.inr rfl)
  obtain ⟨hv, hc, -⟩ := rule_based_nonempty_shape claim evidence hne
  obtain ⟨bv, bc⟩ := verdict_decision_false_branch (supporting_weight claim evidence)
    (contradicting_weight claim evidence) (indicator_hits false_indicators claim)
    (indicator_hits true_indicators claim) (indicator_hits misleading_indicators claim)
    evidence.length h1 h2
  exact ⟨hv.trans bv, hc.trans bc⟩

/-- The evidence scan of the scenario: one supporting source, nothing
contradicting, one collected snippet. -/
theorem earth_scan : evidence_scan "The Earth is round." [earth_evidence]
    = (1, 0, ["NASA confirmed that the Earth is round."]) := by
  have h1 : ((pySplitWs (pyLower "The Earth is round.")).filter (fun w => 4 < pyLen w))
      = ["earth", "round."] := by decide
  simp only [evidence_scan, h1, List.foldl, evidence_scan_step]
  norm_num
  decide

/-- C1-support: the rule-based verifier's confidence always lies in [0,1]. -/
theorem rule_based_confidence_bounds (claim : String) (evidence : List Evidence) :
    0 ≤ (rule_based_verify_claim claim evidence).confidence
      ∧ (rule_based_verify_claim claim evidence).confidence ≤ 1 := by
  unfold rule_based_verify_claim
  by_cases h : evidence.length = 0
  · simp only [h, if_pos]
    norm_num
  · simp only [h, if_neg, not_false_iff]
    exact verdict_decision_confidence_bounds _ _ _ _ _ _
      (supporting_weight_nonneg claim evidence) (contradicting_weight_nonneg claim evidence)

/-- C5: when the supporting weight strictly dominates (and is positive) the
rule-based verdict is `"true"` with confidence
`min(0.75, 0.5 + 0.1*supporting + 0.05*evidence_count)`, symmetrically
`"false"` when the contradicting weight dominates; and on the spec's
scenario — the claim "The Earth is round." with one web evidence item whose
snippet shares a claim keyword and contains "confirmed" and which carries a
URL — the verdict is `"true"` with confidence in [0.5, 0.75] and a
non-empty citation list. -/
theorem rule_based_dominance_and_earth_scenario :
    (∀ claim evidence,
      contradicting_weight claim evidence < supporting_weight claim evidence →
      0 < supporting_weight claim evidence →
      (rule_based_verify_claim claim evidence).verdict = "true"
        ∧ (rule_based_verify_claim claim evidence).confidence
            = min 0.75 (0.5 + supporting_weight claim evidence * 0.1
                + (evidence.length : ℚ) * 0.05))
    ∧ (∀ claim evidence,
      supporting_weight claim evidence < contradicting_weight claim evidence →
      0 < contradicting_weight claim evidence →
      (rule_based_verify_claim claim evidence).verdict = "false"
        ∧ (rule_based_verify_claim claim evidence).confidence
            = min 0.75 (0.5 + contradicting_weight claim evidence * 0.1
                + (evidence.length : ℚ) * 0.05))
    ∧ ((rule_based_verify_claim "The Earth is round." [earth_evidence]).verdict = "true"
        ∧ 0.5 ≤ (rule_based_verify_claim "The Earth is round." [earth_evidence]).confidence
        ∧ (rule_based_verify_claim "The Earth is round." [earth_evidence]).confidence ≤ 0.75
        ∧ (rule_based_verify_claim "The Earth is round." [earth_evidence]).citations ≠ []) := by
  refine ⟨rule_based_supporting_dominates, rule_based_contradicting_dominates, ?_⟩
  have hs : supporting_weight "The Earth is round." [earth_evidence] = 1 := by
    rw [supporting_weight, earth_scan]
  have hc : contradicting_weight "The Earth is round." [earth_evidence] = 0 := by
    rw [contradicting_weight, earth_scan]
  obtain ⟨hv, hconf⟩ := rule_based_supporting_dominates "The Earth is round." [earth_evidence]
    (by rw [hs, hc]; norm_num) (by rw [hs]; norm_num)
  obtain ⟨-, -, hcit⟩ := rule_based_nonempty_shape "The Earth is round." [earth_evidence]
    (by norm_num)
  refine ⟨hv, ?_, ?_, ?_⟩
  · rw [hconf, hs]
    norm_num
  · rw [hconf, hs]
    norm_num
  · rw [hcit]
    decide

/-- Witness for C5: the first conjunct applied to the scenario inputs. -/
theorem rule_based_dominance_witness :
    (rule_based_verify_claim "The Earth is round." [earth_evidence]).verdict = "true"
      ∧ (rule_based_verify_claim "The Earth is round." [earth_evidence]).confidence
          = min 0.75 (0.5 + supporting_weight "The Earth is round." [earth_evidence] * 0.1
              + (([earth_evidence] : List Evidence).length : ℚ) * 0.05) :=
  rule_based_dominance_and_earth_scenario.1 "The Earth is round." [earth_evidence]
    (by rw [supporting_weight, contradicting_weight, earth_scan]; norm_num)
    (by rw [supporting_weight, earth_scan]; norm_num)

/-- Elements of the matching list of `aggregate_verdicts` come from the
input list. -/
theorem mem_of_mem_matching (vs : List AgentResponse) (ns : List String) (c : String) :
    ∀ x ∈ ((vs.zip ns).filter (fun p => p.2 == c)).map Prod.fst, x ∈ vs := by
  intro x hx
  obtain ⟨⟨a, b⟩, hpf, rfl⟩ := List.mem_map.mp hx
  exact (List.of_mem_zip (List.mem_of_mem_filter hpf)).1

/-- A conditional average of values in [0,1] (0 when the list is empty)
stays in [0,1]. -/
theorem cond_avg_mem (L : List AgentResponse)
    (h : ∀ x ∈ L, 0 ≤ x.confidence.getD 0 ∧ x.confidence.getD 0 ≤ 1) :
    0 ≤ (if L.isEmpty then (0 : ℚ)
          else (L.map (fun v => v.confidence.getD 0)).sum / L.length)
      ∧ (if L.isEmpty then (0 : ℚ)
          else (L.map (fun v => v.confidence.getD 0)).sum / L.length) ≤ 1 := by
  by_cases hL : L.isEmpty
  · simp [hL]
  · have hlen : 0 < L.length := by
      cases L with
      | nil => simp at hL
      | cons a l => simp
    have hlenQ : (0 : ℚ) < (L.length : ℚ) := by exact_mod_cast hlen
    have hsum0 : 0 ≤ (L.map (fun v => v.confidence.getD 0)).sum := by
      refine List.sum_nonneg ?_
      intro x hx
      obtain ⟨a, ha, rfl⟩ := List.mem_map.mp hx
      exact (h a ha).1
    have hsum1 : (L.map (fun v => v.confidence.getD 0)).sum ≤ (L.length : ℚ) := by
      have hb : ∀ x ∈ L.map (fun v => v.confidence.getD 0), x ≤ (1 : ℚ) := by
        intro x hx
        obtain ⟨a, ha, rfl⟩ := List.mem_map.mp hx
        exact (h a ha).2
      have := List.sum_le_card_nsmul (L.map (fun v => v.confidence.getD 0)) 1 hb
      simpa [List.length_map, nsmul_eq_mul, mul_one] using this
    rw [if_neg hL]
    exact ⟨div_nonneg hsum0 hlenQ.le, (div_le_one hlenQ).mpr hsum1⟩

/-- C1-support: `aggregate_verdicts` keeps its mean confidence in [0,1]
whenever every input confidence is. -/
theorem aggregate_confidence_mem (vs : List AgentResponse)
    (h : ∀ r ∈ vs, 0 ≤ r.confidence.getD 0 ∧ r.confidence.getD 0 ≤ 1) :
    0 ≤ (aggregate_verdicts vs).confidence ∧ (aggregate_verdicts vs).confidence ≤ 1 := by
  unfold aggregate_verdicts
  by_cases he : vs.isEmpty
  · rw [if_pos he]
    norm_num
  · rw [if_neg he]
    dsimp only
    exact cond_avg_mem _ (fun x hx => h x (mem_of_mem_matching vs _ _ x hx))

/-- C1 counterexample: `verify_claim` coerces the backend's confidence with
`float(...)` but never clamps it, so a backend value of 2 is returned as 2,
outside [0,1]. -/
theorem verify_claim_confidence_unclamped :
    (verify_claim "c" [] (some (Json.obj [("confidence", Json.num 2)]))).confidence = 2
      ∧ ¬ ((verify_claim "c" []
            (some (Json.obj [("confidence", Json.num 2)]))).confidence ≤ 1) := by
  have h : (verify_claim "c" []
      (some (Json.obj [("confidence", Json.num 2)]))).confidence = 2 := rfl
  exact ⟨h, by rw [h]; norm_num⟩

/-- C1 as amended: clamping to [0,1] holds for `trust_score` and for the
rule-based verifier's confidence, and `aggregate_verdicts` keeps its mean in
[0,1] whenever its inputs are in [0,1]; but `verify_claim` returns the
backend's numeric confidence exactly as coerced, with no clamp. -/
theorem confidence_clamping_amended :
    (∀ netloc, 0 ≤ analyze_source_trust netloc ∧ analyze_source_trust netloc ≤ 1)
    ∧ (∀ claim evidence, 0 ≤ (rule_based_verify_claim claim evidence).confidence
        ∧ (rule_based_verify_claim claim evidence).confidence ≤ 1)
    ∧ (∀ vs : List AgentResponse,
        (∀ r ∈ vs, 0 ≤ r.confidence.getD 0 ∧ r.confidence.getD 0 ≤ 1) →
        0 ≤ (aggregate_verdicts vs).confidence ∧ (aggregate_verdicts vs).confidence ≤ 1)
    ∧ (∀ claim evidence (q : ℚ) fields,
        jsonLookup fields "confidence" = some (Json.num q) →
        (verify_claim claim evidence (some (Json.obj fields))).confidence = q) := by
  refine ⟨?_, rule_based_confidence_bounds, aggregate_confidence_mem, ?_⟩
  · intro netloc
    exact ⟨(analyze_source_trust_as_clamp netloc) ▸ clamp01_nonneg _,
      (analyze_source_trust_as_clamp netloc) ▸ clamp01_le_one _⟩
  · intro claim evidence q fields hq
    unfold verify_claim
    dsimp only
    rw [hq]
    rfl

/-- Witness for C1 (amended): the aggregate conjunct at a concrete
singleton input, and the pass-through conjunct at a concrete field list. -/
theorem confidence_clamping_amended_witness :
    (0 ≤ (aggregate_verdicts [{ verdict := some "true", confidence := some 0.9 }]).confidence
      ∧ (aggregate_verdicts [{ verdict := some "true", confidence := some 0.9 }]).confidence ≤ 1)
    ∧ (verify_claim "c" [] (some (Json.obj [("confidence", Json.num 0.3)]))).confidence = 0.3 :=
  ⟨confidence_clamping_amended.2.2.1 _ (by
      intro r hr
      rw [List.mem_singleton] at hr
      subst hr
      exact ⟨by norm_num, by norm_num⟩),
    confidence_clamping_amended.2.2.2 "c" [] 0.3 [("confidence", Json.num 0.3)] rfl⟩

/-- C4 counterexample: when the backend's JSON carries a non-string
`verdict`, `verify_claim` returns it unchanged — the result's verdict is
not a string. -/
theorem verify_claim_verdict_not_string :
    (verify_claim "c" [] (some (Json.obj [("verdict", Json.num 5)]))).verdict = Json.num 5
      ∧ ∀ s, (verify_claim "c" []
          (some (Json.obj [("verdict", Json.num 5)]))).verdict ≠ Json.str s := by
  have h : (verify_claim "c" []
      (some (Json.obj [("verdict", Json.num 5)]))).verdict = Json.num 5 := rfl
  refine ⟨h, fun s hs => ?_⟩
  rw [h] at hs
  exact Json.noConfusion hs

/-- C4 as amended: `verify_claim` is total — every JSON-decode outcome
yields either the typed success record (confidence coerced to a number,
other fields defaulted when missing but otherwise passed through) or
exactly the rule-based result; decode failure delegates to
`_rule_based_verify_claim` (the only fallback — no second `generate`
call), and the rule-based result is fully typed with confidence in
[0,1]. -/
theorem verify_claim_total_and_fallback :
    (∀ claim evidence, verify_claim claim evidence none
        = dynOfResult (rule_based_verify_claim claim evidence))
    ∧ (∀ claim evidence parsed,
        (∃ fields q, parsed = some (Json.obj fields)
          ∧ pyFloat ((jsonLookup fields "confidence").getD (Json.num 0.5)) = some q
          ∧ verify_claim claim evidence parsed =
              { verdict := (jsonLookup fields "verdict").getD (Json.str "unverified"),
                confidence := q,
                explanation := (jsonLookup fields "explanation").getD (Json.str ""),
                citations := (jsonLookup fields "citations").getD (Json.arr []) })
        ∨ verify_claim claim evidence parsed
            = dynOfResult (rule_based_verify_claim claim evidence))
    ∧ (∀ claim evidence, ∃ (v e : String) (cs : List String),
        (dynOfResult (rule_based_verify_claim claim evidence)).verdict = Json.str v
          ∧ (dynOfResult (rule_based_verify_claim claim evidence)).explanation = Json.str e
          ∧ (dynOfResult (rule_based_verify_claim claim evidence)).citations
              = Json.arr (cs.map Json.str)
          ∧ 0 ≤ (dynOfResult (rule_based_verify_claim claim evidence)).confidence
          ∧ (dynOfResult (rule_based_verify_claim claim evidence)).confidence ≤ 1) := by
  refine ⟨fun claim evidence => rfl, ?_, ?_⟩
  · intro claim evidence parsed
    match parsed with
    | none => exact Or.inr rfl
    | some Json.null => exact Or.inr rfl
    | some (Json.bool b) => exact Or.inr rfl
    | some (Json.num q) => exact Or.inr rfl
    | some (Json.str s) => exact Or.inr rfl
    | some (Json.arr xs) => exact Or.inr rfl
    | some (Json.obj fields) =>
      cases hf : pyFloat ((jsonLookup fields "confidence").getD (Json.num 0.5)) with
      | none =>
        refine Or.inr ?_
        unfold verify_claim
        dsimp only
        rw [hf]
      | some q =>
        refine Or.inl ⟨fields, q, rfl, hf, ?_⟩
        unfold verify_claim
        dsimp only
        rw [hf]
  · intro claim evidence
    exact ⟨(rule_based_verify_claim claim evidence).verdict,
      (rule_based_verify_claim claim evidence).explanation,
      (rule_based_verify_claim claim evidence).citations,
      rfl, rfl, rfl,
      (rule_based_confidence_bounds claim evidence).1,
      (rule_based_confidence_bounds claim evidence).2⟩

/-! ## Counting and majority-vote lemmas for `aggregate_verdicts` -/

theorem bump_of_not_mem (v : String) :
    ∀ acc : List (String × Nat), v ∉ acc.map Prod.fst → bump acc v = acc ++ [(v, 1)] := by
  intro acc
  induction acc with
  | nil => intro _; rfl
  | cons p rest ih =>
    intro h
    rw [List.map_cons, List.mem_cons] at h
    push_neg at h
    obtain ⟨p1, p2⟩ := p
    unfold bump
    rw [if_neg (fun he => h.1 he.symm), ih h.2]
    rfl

theorem keys_bump_of_mem (v : String) :
    ∀ acc : List (String × Nat), v ∈ acc.map Prod.fst →
      (bump acc v).map Prod.fst = acc.map Prod.fst := by
  intro acc
  induction acc with
  | nil => intro h; simp at h
  | cons p rest ih =>
    intro h
    obtain ⟨p1, p2⟩ := p
    unfold bump
    by_cases he : p1 = v
    · rw [if_pos he]
      rfl
    · rw [if_neg he]
      have hv : v ∈ rest.map Prod.fst := by
        rw [List.map_cons, List.mem_cons] at h
        rcases h with h | h
        · exact absurd h.symm he
        · exact h
      simp [ih hv]

theorem bump_map_shift (v : String) (l : List String) :
    ∀ acc : List (String × Nat), (acc.map Prod.fst).Nodup → v ∈ acc.map Prod.fst →
      (bump acc v).map (fun p => (p.1, p.2 + l.count p.1))
        = acc.map (fun p => (p.1, p.2 + (v :: l).count p.1)) := by
  intro acc
  induction acc with
  | nil => intro _ h; simp at h
  | cons p rest ih =>
    intro hnd h
    obtain ⟨p1, p2⟩ := p
    rw [List.map_cons, List.nodup_cons] at hnd
    unfold bump
    by_cases he : p1 = v
    · subst he
      rw [if_pos rfl]
      rw [List.map_cons, List.map_cons]
      congr 1
      · simp [List.count_cons]
        omega
      · apply List.map_congr_left
        intro q hq
        have hqne : q.1 ≠ p1 := by
          intro heq
          have hm : q.1 ∈ rest.map Prod.fst := List.mem_map_of_mem Prod.fst hq
          rw [heq] at hm
          exact hnd.1 hm
        simp [List.count_cons, hqne]
    · rw [if_neg he]
      have hv : v ∈ rest.map Prod.fst := by
        rw [List.map_cons, List.mem_cons] at h
        rcases h with h | h
        · exact absurd h.symm he
        · exact h
      rw [List.map_cons, List.map_cons, ih hnd.2 hv]
      congr 1
      simp [List.count_cons, he]

theorem keys_bump_nodup (v : String) (acc : List (String × Nat))
    (hnd : (acc.map Prod.fst).Nodup) : ((bump acc v).map Prod.fst).Nodup := by
  by_cases h : v ∈ acc.map Prod.fst
  · rw [keys_bump_of_mem v acc h]
    exact hnd
  · rw [bump_of_not_mem v acc h]
    simp only [List.map_append]
    refine List.Nodup.append hnd (by simp) ?_
    intro a ha hb
    simp at hb
    subst hb
    exact h ha

theorem mem_dedupFirst : ∀ (l : List String) (a : String), a ∈ dedupFirst l ↔ a ∈ l := by
  intro l
  induction l using dedupFirst.induct with
  | case1 => intro a; rw [dedupFirst]
  | case2 v rest ih =>
    intro a
    rw [dedupFirst]
    simp only [List.mem_cons, ih, List.mem_filter, decide_eq_true_eq]
    constructor
    · rintro (rfl | ⟨h, -⟩)
      · exact Or.inl rfl
      · exact Or.inr h
    · rintro (rfl | h)
      · exact Or.inl rfl
      · by_cases hav : a = v
        · exact Or.inl hav
        · exact Or.inr ⟨h, hav⟩

theorem dedupFirst_nodup : ∀ l : List String, (dedupFirst l).Nodup := by
  intro l
  induction l using dedupFirst.induct with
  | case1 => rw [dedupFirst]; exact List.nodup_nil
  | case2 v rest ih =>
    rw [dedupFirst]
    refine List.nodup_cons.mpr ⟨?_, ih⟩
    intro hv
    rw [mem_dedupFirst, List.mem_filter] at hv
    simpa using hv.2

theorem contains_eq_true_of_mem {l : List String} {a : String} (h : a ∈ l) :
    l.contains a = true :=
  List.elem_iff.mpr h

theorem contains_eq_false_of_not_mem {l : List String} {a : String} (h : a ∉ l) :
    l.contains a = false := by
  cases hb : l.contains a with
  | false => rfl
  | true => exact absurd (List.elem_iff.mp hb) h

theorem foldl_bump_characterization :
    ∀ (l : List String) (acc : List (String × Nat)), (acc.map Prod.fst).Nodup →
      l.foldl bump acc
        = acc.map (fun p => (p.1, p.2 + l.count p.1))
          ++ (dedupFirst (l.filter (fun v => !((acc.map Prod.fst).contains v)))).map
              (fun v => (v, l.count v)) := by
  intro l
  induction l with
  | nil =>
    intro acc hnd
    simp [dedupFirst]
  | cons v l' ih =>
    intro acc hnd
    rw [List.foldl_cons]
    by_cases hv : v ∈ acc.map Prod.fst
    · rw [ih (bump acc v) (keys_bump_nodup v acc hnd)]
      rw [bump_map_shift v l' acc hnd hv, keys_bump_of_mem v acc hv]
      have hcv := contains_eq_true_of_mem hv
      have hfil : (v :: l').filter (fun w => !((acc.map Prod.fst).contains w))
          = l'.filter (fun w => !((acc.map Prod.fst).contains w)) := by
        rw [List.filter_cons, hcv]
        rfl
      rw [hfil]
      congr 1
      apply List.map_congr_left
      intro w hw
      rw [mem_dedupFirst, List.mem_filter] at hw
      have hwv : w ≠ v := by
        intro he
        rw [he, hcv] at hw
        simpa using hw.2
      simp [List.count_cons, hwv]
    · rw [ih (bump acc v) (keys_bump_nodup v acc hnd)]
      rw [bump_of_not_mem v acc hv]
      have hcv := contains_eq_false_of_not_mem hv
      have hkeys : ((acc ++ [(v, 1)]).map Prod.fst) = acc.map Prod.fst ++ [v] := by
        simp
      have hfil : (v :: l').filter (fun w => !((acc.map Prod.fst).contains w))
          = v :: l'.filter (fun w => !((acc.map Prod.fst).contains w)) := by
        rw [List.filter_cons, hcv]
        rfl
      rw [hkeys, hfil, dedupFirst]
      simp only [List.map_append, List.map_cons, List.map_nil, List.nil_append,
        List.append_assoc, List.singleton_append]
      congr 1
      · apply List.map_congr_left
        intro p hp
        have hpv : p.1 ≠ v := by
          intro he
          rw [← he] at hv
          exact hv (List.mem_map_of_mem Prod.fst hp)
        simp [List.count_cons, hpv]
      · congr 1
        · simp only [List.count_cons_self, Prod.mk.injEq, true_and]
          omega
        · have hff : l'.filter (fun w => !((acc.map Prod.fst ++ [v]).contains w))
              = (l'.filter (fun w => !((acc.map Prod.fst).contains w))).filter
                  (fun w => w ≠ v) := by
            rw [List.filter_filter]
            apply List.filter_congr
            intro w _
            by_cases hwv : w = v
            · subst hwv
              simp
            · by_cases hwa : w ∈ acc.map Prod.fst <;>
                simp [hwv, contains_eq_true_of_mem, contains_eq_false_of_not_mem, hwa]
          rw [hff]
          apply List.map_congr_left
          intro w hw
          rw [mem_dedupFirst, List.mem_filter] at hw
          have hwv : w ≠ v := by simpa using hw.2
          simp [List.count_cons, hwv]

theorem countsOf_characterization (l : List String) :
    countsOf l = (dedupFirst l).map (fun v => (v, l.count v)) := by
  have h := foldl_bump_characterization l [] (by simp)
  simpa [countsOf] using h

theorem filter_indexOf_le (p : String → Bool) :
    ∀ (l : List String) (a b : String), a ∈ l.filter p → b ∈ l.filter p →
      (l.filter p).indexOf a ≤ (l.filter p).indexOf b → l.indexOf a ≤ l.indexOf b := by
  intro l
  induction l with
  | nil => intro a b ha; simp at ha
  | cons c rest ih =>
    intro a b ha hb hle
    by_cases pc : p c
    · rw [List.filter_cons_of_pos pc] at ha hb hle
      by_cases hac : a = c
      · subst hac
        rw [List.indexOf_cons_self]
        exact Nat.zero_le _
      · have ha' : a ∈ rest.filter p := by
          rcases List.mem_cons.mp ha with h | h
          · exact absurd h hac
          · exact h
        by_cases hbc : b = c
        · exfalso
          subst hbc
          rw [List.indexOf_cons_self, List.indexOf_cons_ne _ (fun he => hac he.symm)] at hle
          exact Nat.not_succ_le_zero _ hle
        · have hb' : b ∈ rest.filter p := by
            rcases List.mem_cons.mp hb with h | h
            · exact absurd h hbc
            · exact h
          rw [List.indexOf_cons_ne _ (fun he => hac he.symm),
            List.indexOf_cons_ne _ (fun he => hbc he.symm)] at hle
          rw [List.indexOf_cons_ne _ (fun he => hac he.symm),
            List.indexOf_cons_ne _ (fun he => hbc he.symm)]
          exact Nat.succ_le_succ (ih a b ha' hb' (Nat.le_of_succ_le_succ hle))
    · rw [List.filter_cons_of_neg pc] at ha hb hle
      have hac : a ≠ c := fun he => pc (he ▸ List.of_mem_filter ha)
      have hbc : b ≠ c := fun he => pc (he ▸ List.of_mem_filter hb)
      rw [List.indexOf_cons_ne _ (fun he => hac he.symm),
        List.indexOf_cons_ne _ (fun he => hbc he.symm)]
      exact Nat.succ_le_succ (ih a b ha hb hle)

theorem dedupFirst_split_indexOf_le :
    ∀ (l ks₁ ks₂ : List String) (w s : String),
      dedupFirst l = ks₁ ++ w :: ks₂ → s ∈ l → s ∉ ks₁ → l.indexOf w ≤ l.indexOf s := by
  intro l
  induction l using dedupFirst.induct with
  | case1 =>
    intro ks₁ ks₂ w s h
    rw [dedupFirst] at h
    exact absurd h.symm (List.append_ne_nil_of_right_ne_nil ks₁ (List.cons_ne_nil w ks₂))
  | case2 v rest ih =>
    intro ks₁ ks₂ w s h hs hks
    rw [dedupFirst] at h
    cases ks₁ with
    | nil =>
      rw [List.nil_append] at h
      injection h with h1 h2
      subst h1
      rw [List.indexOf_cons_self]
      exact Nat.zero_le _
    | cons k ks₁' =>
      rw [List.cons_append] at h
      injection h with h1 h2
      subst h1
      have hsv : s ≠ v := fun he => hks (he ▸ List.mem_cons_self v ks₁')
      have hsrest : s ∈ rest := by
        rcases List.mem_cons.mp hs with he | he
        · exact absurd he hsv
        · exact he
      have hsf : s ∈ rest.filter (fun w => w ≠ v) := by
        rw [List.mem_filter]
        exact ⟨hsrest, by simp [hsv]⟩
      have hks' : s ∉ ks₁' := fun hmem => hks (List.mem_cons_of_mem v hmem)
      have hIH := ih ks₁' ks₂ w s h2 hsf hks'
      have hwf : w ∈ rest.filter (fun w => w ≠ v) := by
        rw [← mem_dedupFirst, h2]
        exact List.mem_append_right ks₁' (List.mem_cons_self w ks₂)
      have hwv : w ≠ v := by
        have := List.of_mem_filter hwf
        simpa using this
      have hmain := filter_indexOf_le (fun w => w ≠ v) rest w s hwf hsf hIH
      rw [List.indexOf_cons_ne rest (fun he => hwv he.symm),
        List.indexOf_cons_ne rest (fun he => hsv he.symm)]
      exact Nat.succ_le_succ hmain

theorem pyMaxFrom_spec :
    ∀ (ys : List (String × Nat)) (best : String × Nat),
      best.2 ≤ (pyMaxFrom best ys).2
      ∧ (∀ y ∈ ys, y.2 ≤ (pyMaxFrom best ys).2)
      ∧ (pyMaxFrom best ys = best
          ∨ ∃ l₁ l₂, ys = l₁ ++ (pyMaxFrom best ys) :: l₂
              ∧ best.2 < (pyMaxFrom best ys).2
              ∧ ∀ y ∈ l₁, y.2 < (pyMaxFrom best ys).2) := by
  intro ys
  induction ys with
  | nil => exact fun best => ⟨le_rfl, by simp, Or.inl rfl⟩
  | cons y ys ih =>
    intro best
    by_cases h : best.2 < y.2
    · have hred : pyMaxFrom best (y :: ys) = pyMaxFrom y ys := by
        rw [pyMaxFrom, if_pos h]
      obtain ⟨ih1, ih2, ih3⟩ := ih y
      rw [hred]
      refine ⟨h.le.trans ih1, ?_, ?_⟩
      · intro z hz
        rcases List.mem_cons.mp hz with rfl | hz
        · exact ih1
        · exact ih2 z hz
      · rcases ih3 with heq | ⟨l₁, l₂, hsplit, hlt, hall⟩
        · refine Or.inr ⟨[], ys, by rw [heq, List.nil_append], by rw [heq]; exact h, by simp⟩
        · refine Or.inr ⟨y :: l₁, l₂, ?_, ?_, ?_⟩
          · rw [List.cons_append, ← hsplit]
          · exact h.trans hlt
          · intro z hz
            rcases List.mem_cons.mp hz with rfl | hz
            · exact hlt
            · exact hall z hz
    · have hred : pyMaxFrom best (y :: ys) = pyMaxFrom best ys := by
        rw [pyMaxFrom, if_neg h]
      obtain ⟨ih1, ih2, ih3⟩ := ih best
      rw [hred]
      refine ⟨ih1, ?_, ?_⟩
      · intro z hz
        rcases List.mem_cons.mp hz with rfl | hz
        · exact (not_lt.mp h).trans ih1
        · exact ih2 z hz
      · rcases ih3 with heq | ⟨l₁, l₂, hsplit, hlt, hall⟩
        · exact Or.inl heq
        · refine Or.inr ⟨y :: l₁, l₂, ?_, hlt, ?_⟩
          · rw [List.cons_append, ← hsplit]
          · intro z hz
            rcases List.mem_cons.mp hz with rfl | hz
            · exact (not_lt.mp h).trans_lt hlt
            · exact hall z hz

theorem pyMaxBySnd_spec (x : String × Nat) (xs : List (String × Nat)) :
    ∃ r, pyMaxBySnd (x :: xs) = some r ∧ r ∈ x :: xs
      ∧ (∀ y ∈ x :: xs, y.2 ≤ r.2)
      ∧ ∃ l₁ l₂, x :: xs = l₁ ++ r :: l₂ ∧ ∀ y ∈ l₁, y.2 < r.2 := by
  obtain ⟨r, hr⟩ : ∃ r, pyMaxFrom x xs = r := ⟨_, rfl⟩
  obtain ⟨h1, h2, h3⟩ := pyMaxFrom_spec xs x
  rw [hr] at h1 h2 h3
  refine ⟨r, by rw [pyMaxBySnd, hr], ?_, ?_, ?_⟩
  · rcases h3 with heq | ⟨l₁, l₂, hsplit, -, -⟩
    · rw [heq]
      exact List.mem_cons_self x xs
    · rw [hsplit]
      exact List.mem_cons_of_mem x (List.mem_append_right l₁ (List.mem_cons_self r l₂))
  · intro y hy
    rcases List.mem_cons.mp hy with rfl | hy
    · exact h1
    · exact h2 y hy
  · rcases h3 with heq | ⟨l₁, l₂, hsplit, hlt, hall⟩
    · exact ⟨[], xs, by rw [heq, List.nil_append], by simp⟩
    · refine ⟨x :: l₁, l₂, by rw [List.cons_append, ← hsplit], ?_⟩
      intro y hy
      rcases List.mem_cons.mp hy with rfl | hy
      · exact hlt
      · exact hall y hy

theorem zip_filter_map_fst (f : AgentResponse → String) (c : String) :
    ∀ vs : List AgentResponse,
      ((vs.zip (vs.map f)).filter (fun p => p.2 == c)).map Prod.fst
        = vs.filter (fun v => f v == c) := by
  intro vs
  induction vs with
  | nil => rfl
  | cons v rest ih =>
    rw [List.map_cons, List.zip_cons_cons, List.filter_cons, List.filter_cons]
    by_cases h : (f v == c) = true <;> simp [h, ih]

theorem mem_countsOf {q : String × Nat} {l : List String} (hq : q ∈ countsOf l) :
    q.2 = l.count q.1 ∧ q.1 ∈ l := by
  rw [countsOf_characterization] at hq
  obtain ⟨u, hu, huq⟩ := List.mem_map.mp hq
  rw [← huq]
  exact ⟨rfl, (mem_dedupFirst l u).mp hu⟩

theorem countsOf_mem_of_mem {s : String} {l : List String} (hs : s ∈ l) :
    (s, l.count s) ∈ countsOf l := by
  rw [countsOf_characterization]
  exact List.mem_map_of_mem _ ((mem_dedupFirst l s).mpr hs)

theorem keys_countsOf (l : List String) :
    (countsOf l).map Prod.fst = dedupFirst l := by
  rw [countsOf_characterization, List.map_map]
  exact List.map_id _

theorem aggregate_verdicts_shape (vs : List AgentResponse) (hne : vs ≠ []) :
    (aggregate_verdicts vs).verdict
        = ((pyMaxBySnd (countsOf (normalized_of vs))).map Prod.fst).getD "unverified"
      ∧ (aggregate_verdicts vs).confidence
          = (if (matching_of vs).isEmpty then 0
              else ((matching_of vs).map (fun v => v.confidence.getD 0)).sum
                / (matching_of vs).length) := by
  have hE : vs.isEmpty = false := by
    cases vs with
    | nil => exact absurd rfl hne
    | cons a l => rfl
  have h1 : (aggregate_verdicts vs).verdict
      = ((pyMaxBySnd (countsOf (normalized_of vs))).map Prod.fst).getD "unverified" := by
    rw [aggregate_verdicts, hE]
    rfl
  refine ⟨h1, ?_⟩
  conv_lhs => rw [aggregate_verdicts, hE]
  simp only [Bool.false_eq_true, if_false]
  rw [zip_filter_map_fst]
  rw [matching_of, h1]
  rfl

theorem aggregate_verdicts_majority (vs : List AgentResponse) (hne : vs ≠ []) :
    (aggregate_verdicts vs).verdict ∈ normalized_of vs
    ∧ (∀ s : String, (normalized_of vs).count s
        ≤ (normalized_of vs).count (aggregate_verdicts vs).verdict)
    ∧ (∀ s ∈ normalized_of vs,
        (normalized_of vs).count s = (normalized_of vs).count (aggregate_verdicts vs).verdict →
        (normalized_of vs).indexOf (aggregate_verdicts vs).verdict
          ≤ (normalized_of vs).indexOf s)
    ∧ (aggregate_verdicts vs).confidence
        = ((matching_of vs).map (fun v => v.confidence.getD 0)).sum
          / (matching_of vs).length := by
  obtain ⟨hv, hc⟩ := aggregate_verdicts_shape vs hne
  have hns : normalized_of vs ≠ [] := by
    cases vs with
    | nil => exact absurd rfl hne
    | cons a l => simp [normalized_of]
  obtain ⟨n0, ns', hn⟩ := List.exists_cons_of_ne_nil hns
  obtain ⟨x, xs, hcx⟩ : ∃ x xs, countsOf (normalized_of vs) = x :: xs := by
    rw [countsOf_characterization, hn, dedupFirst]
    exact ⟨_, _, rfl⟩
  obtain ⟨r, hmax, hrmem, hrmaxall, l₁, l₂, hsplit, hl₁⟩ := pyMaxBySnd_spec x xs
  rw [← hcx] at hmax hrmem hrmaxall hsplit
  have hw : (aggregate_verdicts vs).verdict = r.1 := by
    rw [hv, hmax]
    rfl
  obtain ⟨hr2, hr1mem⟩ := mem_countsOf hrmem
  refine ⟨by rw [hw]; exact hr1mem, ?_, ?_, ?_⟩
  · intro s
    rw [hw]
    by_cases hs : s ∈ normalized_of vs
    · have hle := hrmaxall (s, (normalized_of vs).count s) (countsOf_mem_of_mem hs)
      rw [hr2] at hle
      simpa using hle
    · rw [List.count_eq_zero_of_not_mem hs]
      exact Nat.zero_le _
  · intro s hsmem hcount
    rw [hw] at hcount ⊢
    have hpair : (s, (normalized_of vs).count s) ∈ countsOf (normalized_of vs) :=
      countsOf_mem_of_mem hsmem
    rw [hsplit] at hpair
    rcases List.mem_append.mp hpair with hin1 | hin2
    · exfalso
      have hlt := hl₁ _ hin1
      rw [hr2] at hlt
      simp only at hlt
      rw [hcount] at hlt
      exact lt_irrefl _ hlt
    · rcases List.mem_cons.mp hin2 with heq | hin2'
      · have hs_eq : s = r.1 := congrArg Prod.fst heq
        rw [hs_eq]
      · have hkeys : dedupFirst (normalized_of vs)
            = l₁.map Prod.fst ++ r.1 :: l₂.map Prod.fst := by
          rw [← keys_countsOf, hsplit]
          simp
        have hs_not_l₁ : s ∉ l₁.map Prod.fst := by
          intro hsk
          obtain ⟨q, hq, hq1⟩ := List.mem_map.mp hsk
          have hqc : q ∈ countsOf (normalized_of vs) := by
            rw [hsplit]
            exact List.mem_append_left _ hq
          obtain ⟨hq2, -⟩ := mem_countsOf hqc
          have hlt := hl₁ q hq
          rw [hq2, hq1, hcount, ← hr2] at hlt
          exact lt_irrefl _ hlt
        exact dedupFirst_split_indexOf_le (normalized_of vs) (l₁.map Prod.fst)
          (l₂.map Prod.fst) r.1 s hkeys hsmem hs_not_l₁
  · rw [hc]
    have hmne : (matching_of vs).isEmpty = false := by
      obtain ⟨v, hv', hfv⟩ := List.mem_map.mp hr1mem
      have hvm : v ∈ matching_of vs := by
        rw [matching_of]
        refine List.mem_filter.mpr ⟨hv', ?_⟩
        rw [hw]
        exact beq_iff_eq.mpr hfv
      cases hm : (matching_of vs).isEmpty with
      | false => rfl
      | true =>
        rw [List.isEmpty_iff] at hm
        rw [hm] at hvm
        exact absurd hvm (List.not_mem_nil v)
    rw [hmne]
    rfl

/-- C9: `aggregate_verdicts` takes a majority vote over the normalized
verdict strings — the winner occurs in the normalized list and its count is
maximal — with ties broken by the first-encountered maximum in
first-occurrence insertion order (the winner's first occurrence is no later
than that of any verdict with an equal count), and its confidence is the
mean of the confidences of exactly the responses whose normalized verdict
equals the winner; in particular, voting over ["true","true","false"]
yields "true", and the tie ["true","false"] yields the first-seen
"true". -/
theorem aggregate_majority_vote_spec :
    (∀ vs : List AgentResponse, vs ≠ [] →
      (aggregate_verdicts vs).verdict ∈ normalized_of vs
      ∧ (∀ s : String, (normalized_of vs).count s
          ≤ (normalized_of vs).count (aggregate_verdicts vs).verdict)
      ∧ (∀ s ∈ normalized_of vs,
          (normalized_of vs).count s
              = (normalized_of vs).count (aggregate_verdicts vs).verdict →
          (normalized_of vs).indexOf (aggregate_verdicts vs).verdict
            ≤ (normalized_of vs).indexOf s)
      ∧ (aggregate_verdicts vs).confidence
          = ((matching_of vs).map (fun v => v.confidence.getD 0)).sum
            / (matching_of vs).length)
    ∧ (aggregate_verdicts [{ verdict := some "true", confidence := some 0.9 },
        { verdict := some "true", confidence := some 0.8 },
        { verdict := some "false", confidence := some 0.7 }]).verdict = "true"
    ∧ (aggregate_verdicts [{ verdict := some "true", confidence := some 0.9 },
        { verdict := some "false", confidence := some 0.7 }]).verdict = "true" :=
  ⟨aggregate_verdicts_majority, by decide, by decide⟩

/-- Witness for C9: the universal conjunct applied to the concrete tie
input, with its non-emptiness hypothesis discharged. -/
theorem aggregate_majority_vote_witness :
    (aggregate_verdicts [{ verdict := some "true", confidence := some 0.9 },
        { verdict := some "false", confidence := some 0.7 }]).verdict
      ∈ normalized_of [{ verdict := some "true", confidence := some 0.9 },
        { verdict := some "false", confidence := some 0.7 }] :=
  (aggregate_majority_vote_spec.1 _ (List.cons_ne_nil _ _)).1

/-! ## Fusion, sorting and renumbering lemmas for `extract` -/

theorem fuse_exact_cases (m : String) (st : FusionState) (rc : RawClaim) :
    fuse_exact m st rc = st
    ∨ ∃ cl : Claim, cl.confidence = rc.confidence ∧ claimText cl ∉ st.2
        ∧ fuse_exact m st rc = (st.1 ++ [cl], st.2 ++ [claimText cl]) := by
  unfold fuse_exact
  dsimp only
  by_cases h : st.2.contains (pyLower (pyStrip rc.claim)) = true
  · rw [if_pos h]
    exact Or.inl rfl
  · rw [if_neg h]
    refine Or.inr ⟨⟨st.1.length + 1, rc.claim, rc.confidence, m⟩, rfl, ?_, rfl⟩
    intro hmem
    exact h (contains_eq_true_of_mem hmem)

theorem fuse_similar_cases (m : String) (st : FusionState) (rc : RawClaim) :
    fuse_similar m st rc = st
    ∨ ∃ cl : Claim, cl.confidence = rc.confidence ∧ claimText cl ∉ st.2
        ∧ fuse_similar m st rc = (st.1 ++ [cl], st.2 ++ [claimText cl]) := by
  unfold fuse_similar
  dsimp only
  by_cases h : (!(st.2.any (fun existing_text =>
      (strIn (pyLower (pyStrip rc.claim)) existing_text
          || strIn existing_text (pyLower (pyStrip rc.claim)))
        && decide (20 < pyLen (pyLower (pyStrip rc.claim)))
        && decide (20 < pyLen existing_text)))
      && !(st.2.contains (pyLower (pyStrip rc.claim)))) = true
  · rw [if_pos h]
    obtain ⟨-, h2⟩ := Bool.and_eq_true_iff.mp h
    refine Or.inr ⟨⟨st.1.length + 1, rc.claim, rc.confidence, rc.method.getD m⟩, rfl, ?_, rfl⟩
    intro hmem
    have hmem' : pyLower (pyStrip rc.claim) ∈ st.2 := hmem
    rw [contains_eq_true_of_mem hmem'] at h2
    exact absurd h2 (by simp)
  · rw [if_neg h]
    exact Or.inl rfl

theorem fuse_foldl_invariant (step : FusionState → RawClaim → FusionState)
    (hstep : ∀ st rc, step st rc = st
      ∨ ∃ cl : Claim, cl.confidence = rc.confidence ∧ claimText cl ∉ st.2
          ∧ step st rc = (st.1 ++ [cl], st.2 ++ [claimText cl]))
    (P : ℚ → Prop) :
    ∀ (rcs : List RawClaim) (st : FusionState),
      st.2 = st.1.map claimText → st.2.Nodup → (∀ c ∈ st.1, P c.confidence) →
      (∀ rc ∈ rcs, P rc.confidence) →
      (rcs.foldl step st).2 = (rcs.foldl step st).1.map claimText
        ∧ (rcs.foldl step st).2.Nodup
        ∧ (∀ c ∈ (rcs.foldl step st).1, P c.confidence) := by
  intro rcs
  induction rcs with
  | nil => exact fun st h1 h2 h3 _ => ⟨h1, h2, h3⟩
  | cons rc rest ih =>
    intro st h1 h2 h3 h4
    rw [List.foldl_cons]
    rcases hstep st rc with heq | ⟨cl, hconf, hnotin, heq⟩
    · rw [heq]
      exact ih st h1 h2 h3 (fun x hx => h4 x (List.mem_cons_of_mem rc hx))
    · rw [heq]
      refine ih _ ?_ ?_ ?_ (fun x hx => h4 x (List.mem_cons_of_mem rc hx))
      · simp [h1]
      · refine List.Nodup.append h2 (List.nodup_singleton _) ?_
        intro a ha hb
        rw [List.mem_singleton] at hb
        subst hb
        exact hnotin ha
      · intro c hc
        rcases List.mem_append.mp hc with hc | hc
        · exact h3 c hc
        · rw [List.mem_singleton] at hc
          subst hc
          rw [hconf]
          exact h4 rc (List.mem_cons_self rc rest)

theorem extract_simple_confidence (text : String) :
    ∀ rc ∈ extract_simple text, rc.confidence = 0.6 := by
  intro rc hrc
  unfold extract_simple at hrc
  rw [List.mem_filterMap] at hrc
  obtain ⟨s, -, heq⟩ := hrc
  split at heq
  · cases heq
    rfl
  · exact absurd heq (by simp)

theorem renumber_map_claimText (l : List Claim) :
    ∀ i, (renumber i l).map claimText = l.map claimText := by
  induction l with
  | nil => intro i; rfl
  | cons c rest ih =>
    intro i
    rw [renumber, List.map_cons, List.map_cons, ih]
    rfl

theorem renumber_map_confidence (l : List Claim) :
    ∀ i, (renumber i l).map Claim.confidence = l.map Claim.confidence := by
  induction l with
  | nil => intro i; rfl
  | cons c rest ih =>
    intro i
    rw [renumber, List.map_cons, List.map_cons, ih]

theorem renumber_map_id (l : List Claim) :
    ∀ i, (renumber i l).map Claim.id = List.range' i l.length := by
  induction l with
  | nil => intro i; rfl
  | cons c rest ih =>
    intro i
    rw [renumber, List.map_cons, List.length_cons, List.range'_succ, ih]

theorem renumber_length (l : List Claim) :
    ∀ i, (renumber i l).length = l.length := by
  induction l with
  | nil => intro i; rfl
  | cons c rest ih =>
    intro i
    rw [renumber, List.length_cons, List.length_cons, ih]

/-- C8: for every input text (and any outputs of the two collaborator-backed
strategies whose confidences are in [0,1] — the source assigns only
0.7/0.8/0.85 there), `extract` returns claims with pairwise-distinct
trimmed-lower-cased texts, every confidence in [0,1], ids forming the
contiguous sequence 1..N, in order of non-increasing confidence. -/
theorem extract_claims_spec :
    ∀ (text : String) (spacy_claims llm_claims : List RawClaim) (use_llm : Bool),
      (∀ rc ∈ spacy_claims, 0 ≤ rc.confidence ∧ rc.confidence ≤ 1) →
      (∀ rc ∈ llm_claims, 0 ≤ rc.confidence ∧ rc.confidence ≤ 1) →
      ((extract text spacy_claims llm_claims use_llm).map claimText).Nodup
      ∧ (∀ c ∈ extract text spacy_claims llm_claims use_llm,
          0 ≤ c.confidence ∧ c.confidence ≤ 1)
      ∧ (extract text spacy_claims llm_claims use_llm).map Claim.id
          = List.range' 1 (extract text spacy_claims llm_claims use_llm).length
      ∧ ((extract text spacy_claims llm_claims use_llm).map Claim.confidence).Pairwise
          (fun a b => b ≤ a) := by
  intro text sc lc ul hsc hlc
  unfold extract
  by_cases hlen : pyLen (pyStrip text) < 10
  · rw [if_pos hlen]
    refine ⟨List.nodup_nil, by simp, rfl, List.Pairwise.nil⟩
  · rw [if_neg hlen]
    have h1 := fuse_foldl_invariant (fuse_exact "spacy") (fuse_exact_cases "spacy")
      (fun q => 0 ≤ q ∧ q ≤ 1) sc ([], []) rfl List.nodup_nil (by simp) hsc
    have h2 : ((if ul then lc.foldl (fuse_similar "llm") (sc.foldl (fuse_exact "spacy") ([], []))
          else sc.foldl (fuse_exact "spacy") ([], []))).2
        = ((if ul then lc.foldl (fuse_similar "llm") (sc.foldl (fuse_exact "spacy") ([], []))
          else sc.foldl (fuse_exact "spacy") ([], []))).1.map claimText
      ∧ ((if ul then lc.foldl (fuse_similar "llm") (sc.foldl (fuse_exact "spacy") ([], []))
          else sc.foldl (fuse_exact "spacy") ([], []))).2.Nodup
      ∧ (∀ c ∈ ((if ul then lc.foldl (fuse_similar "llm") (sc.foldl (fuse_exact "spacy") ([], []))
          else sc.foldl (fuse_exact "spacy") ([], []))).1, 0 ≤ c.confidence ∧ c.confidence ≤ 1) := by
      cases ul with
      | true =>
        simp only [if_true]
        exact fuse_foldl_invariant (fuse_similar "llm") (fuse_similar_cases "llm")
          (fun q => 0 ≤ q ∧ q ≤ 1) lc _ h1.1 h1.2.1 h1.2.2 hlc
      | false =>
        simp only [Bool.false_eq_true, if_false]
        exact h1
    have hsimple : ∀ rc ∈ extract_simple text, 0 ≤ rc.confidence ∧ rc.confidence ≤ 1 := by
      intro rc hrc
      rw [extract_simple_confidence text rc hrc]
      norm_num
    have h3 := fuse_foldl_invariant (fuse_similar "fallback") (fuse_similar_cases "fallback")
      (fun q => 0 ≤ q ∧ q ≤ 1) (extract_simple text) _ h2.1 h2.2.1 h2.2.2 hsimple
    obtain ⟨hmapEq, hnodup, hP⟩ := h3
    refine ⟨?_, ?_, ?_, ?_⟩
    · rw [renumber_map_claimText]
      refine ((List.perm_insertionSort claimGE _).map claimText).symm.nodup ?_
      rw [← hmapEq]
      exact hnodup
    · intro c hc
      have hconfmem : c.confidence ∈ (renumber 1 (List.insertionSort claimGE _)).map
          Claim.confidence := List.mem_map_of_mem Claim.confidence hc
      rw [renumber_map_confidence] at hconfmem
      have hmem2 := ((List.perm_insertionSort claimGE _).map Claim.confidence).mem_iff.mp hconfmem
      obtain ⟨c', hc', hcc⟩ := List.mem_map.mp hmem2
      rw [← hcc]
      exact hP c' hc'
    · rw [renumber_map_id, renumber_length]
    · rw [renumber_map_confidence]
      refine (List.pairwise_map).mpr ?_
      exact List.sorted_insertionSort claimGE _

/-- Witness for C8: the theorem applied to a concrete text and one concrete
spaCy claim, hypotheses discharged by evaluation. -/
theorem extract_claims_spec_witness :
    ((extract "This text is long enough for processing."
        [{ claim := "The Earth is round", confidence := 0.8, method := none }] [] false).map
          claimText).Nodup
      ∧ (∀ c ∈ extract "This text is long enough for processing."
          [{ claim := "The Earth is round", confidence := 0.8, method := none }] [] false,
          0 ≤ c.confidence ∧ c.confidence ≤ 1)
      ∧ (extract "This text is long enough for processing."
          [{ claim := "The Earth is round", confidence := 0.8, method := none }] [] false).map
            Claim.id
          = List.range' 1 (extract "This text is long enough for processing."
              [{ claim := "The Earth is round", confidence := 0.8, method := none }] []
              false).length
      ∧ ((extract "This text is long enough for processing."
          [{ claim := "The Earth is round", confidence := 0.8, method := none }] [] false).map
            Claim.confidence).Pairwise (fun a b => b ≤ a) :=
  extract_claims_spec "This text is long enough for processing."
    [{ claim := "The Earth is round", confidence := 0.8, method := none }] [] false
    (by
      intro rc hrc
      rw [List.mem_singleton] at hrc
      subst hrc
      norm_num)
    (by
      intro rc hrc
      exact absurd hrc (List.not_mem_nil rc))
